import Mathlib

/-!
# Verification of the loom-downloader batch pipeline (`dl.py`)

A shallow embedding of the program's pure/observable behaviour:

* network responses are passed in as data (status codes, body chunks,
  JSON fields), so each network-touching function becomes a pure function
  of the responses it would receive;
* `await asyncio.sleep`, log appends and network calls are recorded as
  explicit `Event`s in the order the program performs them;
* file contents are modelled as character lists (`List Char`);
* a raised exception is `Except.error`, a normal return is `Except.ok`;
* the cooperative scheduler of `async_pool` is modelled as a small-step
  transition system whose interleavings cover every order in which the
  jobs' I/O can complete.
-/

namespace LoomDl

/-- Decidable equality of exception-or-value results. -/
instance {E A : Type} [DecidableEq E] [DecidableEq A] : DecidableEq (Except E A)
  | Except.ok a, Except.ok b =>
    if h : a = b then isTrue (by rw [h]) else isFalse (by intro hc; cases hc; exact h rfl)
  | Except.ok _, Except.error _ => isFalse (by intro hc; cases hc)
  | Except.error _, Except.ok _ => isFalse (by intro hc; cases hc)
  | Except.error e, Except.error e' =>
    if h : e = e' then isTrue (by rw [h]) else isFalse (by intro hc; cases hc; exact h rfl)

/-- Observable actions of one batch job, in program order: the resolver
POST issued by `fetch_loom_download_url`, one GET attempt by
`download_loom_video` on a direct media URL, an `asyncio.sleep` of the
given number of milliseconds, and an append of a source URL to the
completion log. -/
inductive Event : Type where
  | resolveCall (videoId : String)
  | fetchAttempt (directUrl : String)
  | sleep (ms : Nat)
  | logAppend (url : String)
  deriving DecidableEq, Repr

/-- `fetch_loom_download_url` (dl.py lines 20-27): POSTs to the
transcoded-url endpoint; raises unless the status is exactly 200, else
returns the `url` field of the JSON body (a missing field is a raised
`KeyError`).  The response is modelled as its status and optional `url`
field. -/
def fetch_loom_download_url (status : Nat) (urlField : Option String) :
    Except String String :=
  if status ≠ 200 then Except.error "Failed to fetch download URL"
  else
    match urlField with
    | some u => Except.ok u
    | none => Except.error "KeyError: url"

/-- `download_loom_video` (dl.py lines 30-42): GETs the direct media URL;
raises `Exception("Received 403 Forbidden")` when the status is 403, and
otherwise streams every body chunk to the output file and returns
normally — no other status code is inspected.  The response is modelled
as its status and the list of body chunks (bytes as `Nat`); the value
returned is the byte sequence written to the file. -/
def download_loom_video (status : Nat) (chunks : List (List Nat)) :
    Except String (List Nat) :=
  if status = 403 then Except.error "Received 403 Forbidden"
  else Except.ok chunks.flatten

/-- `backoff` (dl.py lines 45-53): run `fn`; on an exception, if
`retries > 1 and delay <= 32000`, sleep `delay` milliseconds and recurse
with `retries - 1` and `delay * 2`, else re-raise.  `fn` is modelled as a
function of the attempt number (the Python closure is re-awaited on each
attempt against a changing outside world) returning its outcome together
with the events it performs; `backoff` returns the final outcome and the
full event trace, sleeps included. -/
def backoff {E A : Type} (retries : Nat) (fn : Nat → Except E A × List Event)
    (delay : Nat) (k : Nat) : Except E A × List Event :=
  match fn k, retries with
  | (Except.ok a, evs), _ => (Except.ok a, evs)
  | (Except.error e, evs), 0 => (Except.error e, evs)
  | (Except.error e, evs), 1 => (Except.error e, evs)
  | (Except.error e, evs), (r + 2) =>
    if delay ≤ 32000 then
      let rest := backoff (r + 1) fn (delay * 2) (k + 1)
      (rest.1, evs ++ Event.sleep delay :: rest.2)
    else (Except.error e, evs)

/-- A successful attempt returns its outcome unchanged, with no retry. -/
theorem backoff_ok {E A : Type} {fn : Nat → Except E A × List Event}
    {k : Nat} {a : A} {evs : List Event} (r d : Nat)
    (hfn : fn k = (Except.ok a, evs)) :
    backoff r fn d k = (Except.ok a, evs) := by
  rw [backoff.eq_def, hfn]

/-- A failed attempt is propagated unchanged when no retry is allowed. -/
theorem backoff_stop {E A : Type} {fn : Nat → Except E A × List Event}
    {k : Nat} {e : E} {evs : List Event} {r d : Nat}
    (hfn : fn k = (Except.error e, evs)) (h : ¬(1 < r ∧ d ≤ 32000)) :
    backoff r fn d k = (Except.error e, evs) := by
  rw [backoff.eq_def, hfn]
  cases r with
  | zero => rfl
  | succ r' =>
    cases r' with
    | zero => rfl
    | succ r'' =>
      have hd : ¬ d ≤ 32000 := fun hd' => h ⟨by omega, hd'⟩
      simp [hd]

/-- A failed attempt with retries remaining and delay under the ceiling
sleeps `d` and recurses with the delay doubled. -/
theorem backoff_retry {E A : Type} {fn : Nat → Except E A × List Event}
    {k : Nat} {e : E} {evs : List Event} {r d : Nat}
    (hfn : fn k = (Except.error e, evs)) (hr : 1 < r) (hd : d ≤ 32000) :
    backoff r fn d k =
      ((backoff (r - 1) fn (d * 2) (k + 1)).1,
        evs ++ Event.sleep d :: (backoff (r - 1) fn (d * 2) (k + 1)).2) := by
  cases r with
  | zero => omega
  | succ r' =>
    cases r' with
    | zero => omega
    | succ r'' =>
      rw [backoff.eq_def, hfn]
      simp [hd]

/-- The operation that `download_single_video` hands to `backoff`
(dl.py line 128): `lambda: download_loom_video(session, download_url,
output_path)` — one GET attempt on the already-resolved direct URL.  The
network's answer to attempt `k` is `fr durl k` (status, body chunks).
Each call performs exactly one `fetchAttempt` event on `durl`. -/
def job_fetch_op (fr : String → Nat → Nat × List (List Nat)) (durl : String)
    (k : Nat) : Except String (List Nat) × List Event :=
  (download_loom_video (fr durl k).1 (fr durl k).2, [Event.fetchAttempt durl])

/-- Every event of a `backoff` run of the job's fetch operation is either
a fetch attempt on the one direct URL that was captured by the lambda, or
a backoff sleep; and the trace is nonempty, ending with the final attempt
(no sleep is awaited after the last attempt). -/
theorem backoff_job_fetch_events (fr : String → Nat → Nat × List (List Nat))
    (durl : String) :
    ∀ r d k,
      (∀ e ∈ (backoff r (job_fetch_op fr durl) d k).2,
        e = Event.fetchAttempt durl ∨ ∃ ms, e = Event.sleep ms)
      ∧ (backoff r (job_fetch_op fr durl) d k).2.getLast? =
          some (Event.fetchAttempt durl) := by
  intro r
  induction r using Nat.strong_induction_on with
  | _ r ih =>
    intro d k
    cases hres : download_loom_video (fr durl k).1 (fr durl k).2 with
    | ok a =>
      have hfn : job_fetch_op fr durl k = (Except.ok a, [Event.fetchAttempt durl]) := by
        simp [job_fetch_op, hres]
      rw [backoff_ok r d hfn]
      constructor
      · intro e he
        simp only [List.mem_singleton] at he
        exact Or.inl he
      · rfl
    | error e =>
      have hfn : job_fetch_op fr durl k = (Except.error e, [Event.fetchAttempt durl]) := by
        simp [job_fetch_op, hres]
      by_cases hcond : 1 < r ∧ d ≤ 32000
      · rw [backoff_retry hfn hcond.1 hcond.2]
        have ihr := ih (r - 1) (by omega) (d * 2) (k + 1)
        constructor
        · intro ev hev
          simp only [List.cons_append, List.nil_append, List.mem_cons] at hev
          rcases hev with h1 | h2 | h3
          · exact Or.inl h1
          · exact Or.inr ⟨d, h2⟩
          · exact ihr.1 ev h3
        · have hne : (backoff (r - 1) (job_fetch_op fr durl) (d * 2) (k + 1)).2 ≠ [] := by
            intro hnil
            rw [hnil] at ihr
            exact Option.noConfusion ihr.2
          simp only [List.getLast?_append, List.getLast?_cons_cons]
          rw [List.getLast?_cons, ihr.2]
          rfl
      · rw [backoff_stop hfn hcond]
        constructor
        · intro e he
          simp only [List.mem_singleton] at he
          exact Or.inl he
        · rfl

/-- The outcome of one run of `download_single_video`: the events it
performed, in order, and whether it reached the completion-log append
(i.e. the download succeeded). -/
structure JobRun where
  events : List Event
  completed : Bool
  deriving DecidableEq, Repr

/-- `download_single_video` (dl.py lines 115-139).  Inside one `try`:
resolve the identifier once via `fetch_loom_download_url` (response
`rr`), build the output path, run `backoff(5, lambda:
download_loom_video(session, download_url, output_path))` (network
answers `fr`), append the source URL to the log, then sleep
`timeout/1000` seconds if `timeout` is truthy else 5 seconds.  Any
exception from any of these steps jumps to the `except` clause, which
prints and returns — skipping every later step of the `try` block.
Sleeps are recorded in milliseconds.

`download_single_video_resolved` is the part of the `try` block after the
resolver has returned `durl` (dl.py lines 120-136), and
`download_single_video` dispatches on the resolver's outcome first
(dl.py line 118). -/
def download_single_video_resolved (fr : String → Nat → Nat × List (List Nat))
    (url videoId : String) (timeout : Nat) (durl : String) : JobRun :=
  match backoff 5 (job_fetch_op fr durl) 1000 0 with
  | (Except.error _, evs) => ⟨Event.resolveCall videoId :: evs, false⟩
  | (Except.ok _, evs) =>
    ⟨Event.resolveCall videoId ::
      (evs ++ [Event.logAppend url,
        Event.sleep (if timeout ≠ 0 then timeout else 5000)]), true⟩

def download_single_video (rr : Nat × Option String)
    (fr : String → Nat → Nat × List (List Nat))
    (url videoId : String) (timeout : Nat) : JobRun :=
  match fetch_loom_download_url rr.1 rr.2 with
  | Except.error _ => ⟨[Event.resolveCall videoId], false⟩
  | Except.ok durl => download_single_video_resolved fr url videoId timeout durl

/-- The `--timeout` validation in `main` (dl.py lines 170-171): the
parser errors out exactly when a supplied timeout is negative. -/
def timeout_arg_valid (t : Int) : Bool :=
  if t < 0 then false else true

/-- The output filename built by `download_single_video` (dl.py lines
120-123): `f"{prefix}-{index}-{video_id}.mp4"` when a truthy (non-absent,
non-empty) filename prefix was supplied, else `f"{video_id}.mp4"`. -/
def download_filename (pfx : Option (List Char)) (index : Nat)
    (videoId : List Char) : List Char :=
  match pfx with
  | some p =>
    if p ≠ [] then p ++ '-' :: (toString index).data ++ '-' :: videoId ++ ".mp4".data
    else videoId ++ ".mp4".data
  | none => videoId ++ ".mp4".data

/-- The pacing delay `download_single_video` awaits on its success path,
in milliseconds: the configured timeout when truthy, else the fallback
5 seconds (dl.py lines 131-136). -/
def pacing_ms (timeout : Nat) : Nat :=
  if timeout ≠ 0 then timeout else 5000

/-- Unfolding equation: a resolution failure is caught at once. -/
theorem download_single_video_eq_resolve_error {rr : Nat × Option String}
    {fr : String → Nat → Nat × List (List Nat)} {url videoId : String}
    {timeout : Nat} {e : String}
    (hres : fetch_loom_download_url rr.1 rr.2 = Except.error e) :
    download_single_video rr fr url videoId timeout =
      ⟨[Event.resolveCall videoId], false⟩ := by
  unfold download_single_video
  rw [hres]

/-- Unfolding equation: retries exhausted, the exception is caught. -/
theorem download_single_video_eq_fetch_error {rr : Nat × Option String}
    {fr : String → Nat → Nat × List (List Nat)} {url videoId : String}
    {timeout : Nat} {durl : String} {e : String} {evs : List Event}
    (hres : fetch_loom_download_url rr.1 rr.2 = Except.ok durl)
    (hb : backoff 5 (job_fetch_op fr durl) 1000 0 = (Except.error e, evs)) :
    download_single_video rr fr url videoId timeout =
      ⟨Event.resolveCall videoId :: evs, false⟩ := by
  unfold download_single_video
  rw [hres]
  show download_single_video_resolved fr url videoId timeout durl = _
  unfold download_single_video_resolved
  rw [hb]

/-- Unfolding equation: the success path appends to the log and then
awaits the pacing sleep. -/
theorem download_single_video_eq_ok {rr : Nat × Option String}
    {fr : String → Nat → Nat × List (List Nat)} {url videoId : String}
    {timeout : Nat} {durl : String} {a : List Nat} {evs : List Event}
    (hres : fetch_loom_download_url rr.1 rr.2 = Except.ok durl)
    (hb : backoff 5 (job_fetch_op fr durl) 1000 0 = (Except.ok a, evs)) :
    download_single_video rr fr url videoId timeout =
      ⟨Event.resolveCall videoId ::
        (evs ++ [Event.logAppend url, Event.sleep (pacing_ms timeout)]), true⟩ := by
  unfold download_single_video
  rw [hres]
  show download_single_video_resolved fr url videoId timeout durl = _
  unfold download_single_video_resolved
  rw [hb]
  rfl

theorem download_single_video_completed_getLast
    (rr : Nat × Option String) (fr : String → Nat → Nat × List (List Nat))
    (url videoId : String) (timeout : Nat)
    (h : (download_single_video rr fr url videoId timeout).completed = true) :
    (download_single_video rr fr url videoId timeout).events.getLast? =
      some (Event.sleep (pacing_ms timeout)) := by
  cases hres : fetch_loom_download_url rr.1 rr.2 with
  | error e => rw [download_single_video_eq_resolve_error hres] at h; simp at h
  | ok durl =>
    cases hb : backoff 5 (job_fetch_op fr durl) 1000 0 with
    | mk res evs =>
      cases res with
      | error e => rw [download_single_video_eq_fetch_error hres hb] at h; simp at h
      | ok a =>
        rw [download_single_video_eq_ok hres hb]
        rw [show (Event.resolveCall videoId ::
          (evs ++ [Event.logAppend url, Event.sleep (pacing_ms timeout)]))
            = ([Event.resolveCall videoId] ++ evs) ++
              [Event.logAppend url, Event.sleep (pacing_ms timeout)] by simp]
        rw [List.getLast?_append]
        rfl

theorem download_single_video_failed_getLast
    (rr : Nat × Option String) (fr : String → Nat → Nat × List (List Nat))
    (url videoId : String) (timeout : Nat)
    (h : (download_single_video rr fr url videoId timeout).completed = false) :
    ∀ t, (download_single_video rr fr url videoId timeout).events.getLast? ≠
      some (Event.sleep t) := by
  intro t
  cases hres : fetch_loom_download_url rr.1 rr.2 with
  | error e =>
    rw [download_single_video_eq_resolve_error hres]
    intro hc
    simp at hc
  | ok durl =>
    cases hb : backoff 5 (job_fetch_op fr durl) 1000 0 with
    | mk res evs =>
      cases res with
      | ok a => rw [download_single_video_eq_ok hres hb] at h; simp at h
      | error e =>
        rw [download_single_video_eq_fetch_error hres hb]
        have hlast : evs.getLast? = some (Event.fetchAttempt durl) := by
          have hev := (backoff_job_fetch_events fr durl 5 1000 0).2
          rw [hb] at hev
          exact hev
        show (Event.resolveCall videoId :: evs).getLast? ≠ some (Event.sleep t)
        rw [show Event.resolveCall videoId :: evs = [Event.resolveCall videoId] ++ evs by simp]
        rw [List.getLast?_append, hlast]
        intro hc
        simp at hc

/-- C1 (counterexample): with a resolver that succeeds with direct URL
"durl" and a fetch that fails on every attempt (status 403, the expired
signed-URL case), the job's trace contains exactly one resolver call but
five fetch attempts — the identifier is NOT re-resolved on retry and no
fresh direct media URL is obtained, contrary to the claim that the retry
wraps resolve + fetch. -/
theorem c1_counterexample :
    ((download_single_video (200, some "durl") (fun _ _ => (403, []))
        "u" "v" 5000).events.count (Event.resolveCall "v") = 1)
    ∧ ((download_single_video (200, some "durl") (fun _ _ => (403, []))
        "u" "v" 5000).events.count (Event.fetchAttempt "durl") = 5) := by
  decide

/-- C1 (amended): the operation wrapped by `backoff` is only the fetch
(`download_loom_video`) of the direct URL resolved once before the retry
loop: whenever resolution succeeds with `durl`, the job's trace contains
exactly one resolver call, and every fetch attempt of the trace —
however the attempts fail — reuses that same `durl`. -/
theorem c1_resolution_outside_retry (rr : Nat × Option String)
    (fr : String → Nat → Nat × List (List Nat)) (url videoId : String)
    (timeout : Nat) (durl : String)
    (hres : fetch_loom_download_url rr.1 rr.2 = Except.ok durl) :
    ((download_single_video rr fr url videoId timeout).events.count
        (Event.resolveCall videoId) = 1)
    ∧ ∀ u, Event.fetchAttempt u ∈
        (download_single_video rr fr url videoId timeout).events → u = durl := by
  cases hb : backoff 5 (job_fetch_op fr durl) 1000 0 with
  | mk res evs =>
    have hshape := backoff_job_fetch_events fr durl 5 1000 0
    rw [hb] at hshape
    have hnotmem : Event.resolveCall videoId ∉ evs := by
      intro hmem
      rcases hshape.1 _ hmem with h1 | ⟨ms, h2⟩
      · exact Event.noConfusion h1
      · exact Event.noConfusion h2
    have hfetch_evs : ∀ u, Event.fetchAttempt u ∈ evs → u = durl := by
      intro u hmem
      rcases hshape.1 _ hmem with h1 | ⟨ms, h2⟩
      · exact (Event.fetchAttempt.injEq u durl).mp h1
      · exact Event.noConfusion h2
    cases res with
    | error e =>
      rw [download_single_video_eq_fetch_error hres hb]
      constructor
      · show (Event.resolveCall videoId :: evs).count (Event.resolveCall videoId) = 1
        rw [List.count_cons_self, List.count_eq_zero.mpr hnotmem]
      · intro u hmem
        rcases List.mem_cons.mp hmem with h1 | h2
        · exact Event.noConfusion h1
        · exact hfetch_evs u h2
    | ok a =>
      rw [download_single_video_eq_ok hres hb]
      constructor
      · show (Event.resolveCall videoId ::
          (evs ++ [Event.logAppend url, Event.sleep (pacing_ms timeout)])).count
            (Event.resolveCall videoId) = 1
        rw [List.count_cons_self, List.count_append,
          List.count_eq_zero.mpr hnotmem]
        simp
      · intro u hmem
        rcases List.mem_cons.mp hmem with h1 | h2
        · exact Event.noConfusion h1
        · rcases List.mem_append.mp h2 with h3 | h4
          · exact hfetch_evs u h3
          · simp at h4

/-- C1 (witness): the amended theorem applied at a concrete input. -/
theorem c1_resolution_outside_retry_witness :
    ((download_single_video (200, some "d") (fun _ _ => (200, []))
        "u" "v" 5000).events.count (Event.resolveCall "v") = 1) :=
  (c1_resolution_outside_retry (200, some "d") (fun _ _ => (200, []))
    "u" "v" 5000 "d" (by decide)).1

/-- C3 (counterexample): a job whose fetch fails on every attempt with a
configured inter-download delay of 7777 ms never awaits the 7777 ms
pacing sleep: the exception raised after retries are exhausted jumps to
the `except` clause, skipping the pacing branch, so on the failure path
the slot is freed with no pacing delay — contrary to the claim that the
delay is awaited on failure exactly as on success. -/
theorem c3_counterexample :
    ((download_single_video (200, some "d") (fun _ _ => (403, []))
        "u" "v" 7777).completed = false)
    ∧ Event.sleep 7777 ∉ (download_single_video (200, some "d")
        (fun _ _ => (403, [])) "u" "v" 7777).events := by
  decide

/-- C3 (amended): the pacing delay is awaited only on the success path:
a job's trace ends with the pacing sleep (configured timeout if nonzero,
else the 5000 ms fallback) exactly when the job completed — after a
resolution failure or exhausted retries the trace ends with the failing
call and contains no trailing pacing sleep. -/
theorem c3_pacing_only_on_success (rr : Nat × Option String)
    (fr : String → Nat → Nat × List (List Nat)) (url videoId : String)
    (timeout : Nat) :
    (download_single_video rr fr url videoId timeout).events.getLast? =
      some (Event.sleep (pacing_ms timeout))
    ↔ (download_single_video rr fr url videoId timeout).completed = true := by
  constructor
  · intro h
    cases hcomp : (download_single_video rr fr url videoId timeout).completed with
    | true => rfl
    | false =>
      exact absurd h
        (download_single_video_failed_getLast rr fr url videoId timeout hcomp _)
  · exact download_single_video_completed_getLast rr fr url videoId timeout

/-- C9: the argument validation of `main` accepts `--timeout 0` (it only
rejects negatives), yet a batch job that completes with timeout 0 ends
with the fallback 5000 ms sleep, because `if timeout:` tests truthiness
and 0 is falsy — a zero pacing delay cannot be configured. -/
theorem c9_zero_timeout_sleeps_fallback :
    timeout_arg_valid 0 = true
    ∧ ∀ (rr : Nat × Option String) (fr : String → Nat → Nat × List (List Nat))
        (url videoId : String),
        (download_single_video rr fr url videoId 0).completed = true →
        (download_single_video rr fr url videoId 0).events.getLast? =
          some (Event.sleep 5000) := by
  constructor
  · rfl
  · intro rr fr url videoId h
    have hlast := download_single_video_completed_getLast rr fr url videoId 0 h
    simpa [pacing_ms] using hlast

/-- C9 (witness): a concrete completing job with timeout 0 ends with the
5000 ms fallback sleep. -/
theorem c9_zero_timeout_sleeps_fallback_witness :
    (download_single_video (200, some "d") (fun _ _ => (200, []))
      "u" "v" 0).events.getLast? = some (Event.sleep 5000) :=
  c9_zero_timeout_sleeps_fallback.2 (200, some "d") (fun _ _ => (200, []))
    "u" "v" (by decide)

/-- C4 (counterexample): a fetch of a direct media URL answered with
status 404 — a non-success, non-403 status — completes normally, writing
the response body to the output file, instead of failing with a transfer
error as claimed: `download_loom_video` inspects no status other
than 403. -/
theorem c4_counterexample :
    download_loom_video 404 [[1, 2], [3]] = Except.ok [1, 2, 3]
    ∧ download_loom_video 403 [[1, 2], [3]] =
        Except.error "Received 403 Forbidden" := by
  decide

/-- C4 (amended): a fetch answered with status 403 fails with the
distinguished forbidden error; a fetch answered with any other status —
success or not — completes normally, streaming every body chunk to the
file. -/
theorem c4_forbidden_distinguished (status : Nat) (chunks : List (List Nat)) :
    (status = 403 →
      download_loom_video status chunks = Except.error "Received 403 Forbidden")
    ∧ (status ≠ 403 →
      download_loom_video status chunks = Except.ok chunks.flatten) := by
  constructor
  · intro h
    simp [download_loom_video, h]
  · intro h
    simp [download_loom_video, h]

/-- C4 (witness): the amended theorem applied at statuses 403 and 500. -/
theorem c4_forbidden_distinguished_witness :
    download_loom_video 403 [[7]] = Except.error "Received 403 Forbidden"
    ∧ download_loom_video 500 [[7]] = Except.ok [7] :=
  ⟨(c4_forbidden_distinguished 403 [[7]]).1 rfl,
   (c4_forbidden_distinguished 500 [[7]]).2 (by decide)⟩

/-- C5: `backoff` called with 5 attempts and initial delay 1000 ms on an
operation failing every attempt runs the operation exactly 5 times with
inter-attempt sleeps of 1000, 2000, 4000 and 8000 ms, no sleep after the
5th attempt, and propagates the 5th failure unchanged; and in general a
failure is retried exactly when remaining attempts > 1 and the current
delay is ≤ 32000 ms, with the delay doubled for the next attempt. -/
theorem c5_backoff_schedule {E A : Type} (es : Nat → E) (us : Nat → String)
    (fn : Nat → Except E A × List Event)
    (hfn : ∀ k, fn k = (Except.error (es k), [Event.fetchAttempt (us k)])) :
    backoff 5 fn 1000 0 =
      (Except.error (es 4),
        [Event.fetchAttempt (us 0), Event.sleep 1000,
         Event.fetchAttempt (us 1), Event.sleep 2000,
         Event.fetchAttempt (us 2), Event.sleep 4000,
         Event.fetchAttempt (us 3), Event.sleep 8000,
         Event.fetchAttempt (us 4)])
    ∧ (∀ (g : Nat → Except E A × List Event) (r d k : Nat) (e : E)
        (evs : List Event), g k = (Except.error e, evs) →
        ¬(1 < r ∧ d ≤ 32000) → backoff r g d k = (Except.error e, evs))
    ∧ (∀ (g : Nat → Except E A × List Event) (r d k : Nat) (e : E)
        (evs : List Event), g k = (Except.error e, evs) →
        1 < r → d ≤ 32000 →
        backoff r g d k =
          ((backoff (r - 1) g (d * 2) (k + 1)).1,
            evs ++ Event.sleep d :: (backoff (r - 1) g (d * 2) (k + 1)).2)) := by
  refine ⟨?_, fun g r d k e evs h hc => backoff_stop h hc,
    fun g r d k e evs h h1 h2 => backoff_retry h h1 h2⟩
  rw [backoff_retry (hfn 0) (by omega) (by omega)]
  rw [show (5 : Nat) - 1 = 4 from rfl, show (1000 : Nat) * 2 = 2000 from rfl]
  rw [backoff_retry (hfn 1) (by omega) (by omega)]
  rw [show (4 : Nat) - 1 = 3 from rfl, show (2000 : Nat) * 2 = 4000 from rfl]
  rw [backoff_retry (hfn 2) (by omega) (by omega)]
  rw [show (3 : Nat) - 1 = 2 from rfl, show (4000 : Nat) * 2 = 8000 from rfl]
  rw [backoff_retry (hfn 3) (by omega) (by omega)]
  rw [show (2 : Nat) - 1 = 1 from rfl, show (8000 : Nat) * 2 = 16000 from rfl]
  rw [backoff_stop (hfn 4) (by omega)]
  simp

/-- C5 (witness): the schedule on a concrete always-failing operation. -/
theorem c5_backoff_schedule_witness :
    backoff 5 (fun k => ((Except.error k : Except Nat Unit),
        [Event.fetchAttempt "u"])) 1000 0 =
      (Except.error 4,
        [Event.fetchAttempt "u", Event.sleep 1000,
         Event.fetchAttempt "u", Event.sleep 2000,
         Event.fetchAttempt "u", Event.sleep 4000,
         Event.fetchAttempt "u", Event.sleep 8000,
         Event.fetchAttempt "u"]) :=
  (c5_backoff_schedule (fun k => k) (fun _ => "u")
    (fun k => (Except.error k, [Event.fetchAttempt "u"])) (fun _ => rfl)).1

/-! ## File and URL-list layer

Strings manipulated by the program (file contents, URLs, lines) are
modelled as `List Char`. -/

/-- Python's `str.split(sep)` for a single-character separator:
`"".split(s) = [""]`, and each occurrence of the separator opens a new
segment. -/
def splitOnC (sep : Char) : List Char → List (List Char)
  | [] => [[]]
  | c :: rest =>
    if c = sep then [] :: splitOnC sep rest
    else (splitOnC sep rest).modifyHead (c :: ·)

/-- The characters removed by Python's `str.strip()` with no argument
(the ASCII whitespace characters). -/
def isPySpace (c : Char) : Bool :=
  c = ' ' || c = '\t' || c = '\n' || c = '\r' || c = '\x0b' || c = '\x0c'

/-- Python's `str.strip()`: drop leading and trailing whitespace. -/
def pyStrip (l : List Char) : List Char :=
  ((l.dropWhile isPySpace).reverse.dropWhile isPySpace).reverse

/-- `extract_id` (dl.py lines 14-17): drop everything from the first `?`
on, then take the final `/`-separated segment. -/
def extract_id (url : List Char) : List Char :=
  (splitOnC '/' ((splitOnC '?' url).headD [])).getLastD []

/-- `splitOnC` never returns the empty list of segments. -/
theorem splitOnC_ne_nil (sep : Char) : ∀ l : List Char, splitOnC sep l ≠ [] := by
  intro l
  induction l with
  | nil => simp [splitOnC]
  | cons c rest ih =>
    by_cases h : c = sep
    · simp [splitOnC, h]
    · simp only [splitOnC, if_neg h]
      cases hs : splitOnC sep rest with
      | nil => exact absurd hs ih
      | cons a as => simp [List.modifyHead]

/-- A separator-free list is a single segment. -/
theorem splitOnC_of_not_mem {sep : Char} {u : List Char} (h : sep ∉ u) :
    splitOnC sep u = [u] := by
  induction u with
  | nil => rfl
  | cons c rest ih =>
    have hc : ¬ c = sep := fun hcs => h (by rw [hcs]; exact List.mem_cons_self _ _)
    have hrest : sep ∉ rest := fun hm => h (List.mem_cons_of_mem _ hm)
    simp [splitOnC, hc, ih hrest, List.modifyHead]

/-- `modifyHead` acts on the left part of an append when it is
nonempty. -/
theorem modifyHead_append_left {α : Type} (f : α → α) :
    ∀ (l m : List α), l ≠ [] → (l ++ m).modifyHead f = l.modifyHead f ++ m := by
  intro l m h
  cases l with
  | nil => exact absurd rfl h
  | cons a as => simp

/-- Splitting distributes over an explicit separator occurrence. -/
theorem splitOnC_append_sep (sep : Char) :
    ∀ a b : List Char, splitOnC sep (a ++ sep :: b) = splitOnC sep a ++ splitOnC sep b := by
  intro a
  induction a with
  | nil => intro b; simp [splitOnC]
  | cons c rest ih =>
    intro b
    by_cases h : c = sep
    · simp [splitOnC, h, ih b]
    · rw [show (c :: rest) ++ sep :: b = c :: (rest ++ sep :: b) from rfl]
      rw [show splitOnC sep (c :: (rest ++ sep :: b)) =
        (splitOnC sep (rest ++ sep :: b)).modifyHead (c :: ·) by
          simp [splitOnC, h]]
      rw [show splitOnC sep (c :: rest) =
        (splitOnC sep rest).modifyHead (c :: ·) by simp [splitOnC, h]]
      rw [ih b, modifyHead_append_left _ _ _ (splitOnC_ne_nil sep rest)]

/-- `append_to_log_file` (dl.py lines 56-59): open the log for append —
creating it when absent — and write the URL followed by a newline.  The
log file's contents are `none` when the file does not exist. -/
def append_to_log_file (log : Option (List Char)) (url : List Char) :
    Option (List Char) :=
  some (log.getD [] ++ url ++ ['\n'])

/-- `read_downloaded_log` (dl.py lines 62-69): read the whole log, split
into lines, strip each line, keep the non-blank ones (a missing file
yields the empty set).  The Python `set` is modelled as the list of kept
lines with `∈` as membership. -/
def read_downloaded_log (log : Option (List Char)) : List (List Char) :=
  match log with
  | none => []
  | some content =>
    ((splitOnC '\n' content).map pyStrip).filter (fun l => decide (l ≠ []))

/-- `download_from_list`, line 93: strip each line of the URL-list file,
keep those that are non-blank and not already in the completion set read
from the log. -/
def download_from_list_urls (content : List Char) (log : Option (List Char)) :
    List (List Char) :=
  ((splitOnC '\n' content).map pyStrip).filter
    (fun u => decide (u ≠ []) && decide (u ∉ read_downloaded_log log))

/-- The per-job parameters built by `download_from_list` (dl.py lines
98-110): one job per eligible URL, carrying its 1-based index, the URL
and the extracted identifier, in list order. -/
def download_from_list_jobs (content : List Char) (log : Option (List Char)) :
    List (Nat × List Char × List Char) :=
  (download_from_list_urls content log).enum.map
    (fun p => (p.1 + 1, p.2, extract_id p.2))

/-- The stripped non-blank lines of the URL-list file, in order. -/
def nonblank_lines (content : List Char) : List (List Char) :=
  ((splitOnC '\n' content).map pyStrip).filter (fun l => decide (l ≠ []))

/-- The concurrency limit of the batch orchestrator: dl.py line 112 runs
`async_pool(5, tasks)`. -/
def batch_pool_limit : Nat := 5

/-- C8 (counterexample): the URL `" a"` — non-empty and newline-free —
is not contained in a fresh load of the log after being marked completed:
`read_downloaded_log` strips each line, so the loaded set contains `"a"`,
not `" a"`. -/
theorem c8_counterexample :
    (" a".data ≠ ([] : List Char))
    ∧ '\n' ∉ " a".data
    ∧ " a".data ∉ read_downloaded_log (append_to_log_file none " a".data) := by
  decide

/-- C8 (amended): for every URL that is non-empty, newline-free and
invariant under Python's whitespace strip, appending it to a log whose
contents are absent, empty or newline-terminated (as every log this
program writes is, since each append ends with a newline) and then
freshly loading the log yields a set containing the URL. -/
theorem c8_roundtrip (log : Option (List Char)) (u : List Char)
    (hne : u ≠ []) (hnl : '\n' ∉ u) (hstrip : pyStrip u = u)
    (hlog : log = none ∨ ∃ c, log = some c ∧
      (c = [] ∨ ∃ c', c = c' ++ ['\n'])) :
    u ∈ read_downloaded_log (append_to_log_file log u) := by
  have hu_split : splitOnC '\n' (u ++ ['\n']) = [u, []] := by
    rw [show u ++ ['\n'] = u ++ '\n' :: [] from rfl, splitOnC_append_sep,
      splitOnC_of_not_mem hnl]
    rfl
  have hmem : u ∈ splitOnC '\n' ((Option.getD log []) ++ u ++ ['\n']) := by
    rcases hlog with h | ⟨c, hc, hcc⟩
    · subst h
      rw [show (Option.getD (none : Option (List Char)) []) ++ u ++ ['\n']
          = u ++ ['\n'] by simp]
      rw [hu_split]
      exact List.mem_cons_self _ _
    · subst hc
      rcases hcc with h0 | ⟨c', hc'⟩
      · subst h0
        rw [show (Option.getD (some ([] : List Char)) []) ++ u ++ ['\n']
            = u ++ ['\n'] by simp]
        rw [hu_split]
        exact List.mem_cons_self _ _
      · subst hc'
        rw [show (Option.getD (some (c' ++ ['\n'])) []) ++ u ++ ['\n']
            = c' ++ '\n' :: (u ++ ['\n']) by simp]
        rw [splitOnC_append_sep, hu_split]
        exact List.mem_append_right _ (List.mem_cons_self _ _)
  show u ∈ ((splitOnC '\n' ((Option.getD log []) ++ u ++ ['\n'])).map
    pyStrip).filter (fun l => decide (l ≠ []))
  apply List.mem_filter.mpr
  constructor
  · exact List.mem_map.mpr ⟨u, hmem, hstrip⟩
  · simpa using hne

/-- C8 (witness): the amended round-trip at a concrete URL and an absent
log file. -/
theorem c8_roundtrip_witness :
    "https://x/a".data ∈
      read_downloaded_log (append_to_log_file none "https://x/a".data) :=
  c8_roundtrip none "https://x/a".data (by decide) (by decide) (by decide)
    (Or.inl rfl)

/-- The eligible URLs are the stripped non-blank lines that are not in
the loaded completion set, in original order. -/
theorem download_from_list_urls_eq_filter (content : List Char)
    (log : Option (List Char)) :
    download_from_list_urls content log =
      (nonblank_lines content).filter
        (fun u => decide (u ∉ read_downloaded_log log)) := by
  unfold download_from_list_urls nonblank_lines
  rw [List.filter_filter]
  apply List.filter_congr
  intro a _
  rw [Bool.and_comm]

/-- Counting helper: removing the elements satisfying `p` leaves
`length − (number satisfying p)` elements. -/
theorem length_filter_not {α : Type} (p : α → Prop) [DecidablePred p] :
    ∀ l : List α, (l.filter (fun a => decide (¬ p a))).length
      = l.length - (l.filter (fun a => decide (p a))).length := by
  intro l
  induction l with
  | nil => rfl
  | cons a t ih =>
    have hle := List.length_filter_le (fun a => decide (p a)) t
    by_cases h : p a
    · have h1 : (a :: t).filter (fun a => decide (¬ p a)) =
          t.filter (fun a => decide (¬ p a)) := by simp [List.filter_cons, h]
      have h2 : (a :: t).filter (fun a => decide (p a)) =
          a :: t.filter (fun a => decide (p a)) := by simp [List.filter_cons, h]
      rw [h1, h2, ih, List.length_cons, List.length_cons]
      omega
    · have h1 : (a :: t).filter (fun a => decide (¬ p a)) =
          a :: t.filter (fun a => decide (¬ p a)) := by simp [List.filter_cons, h]
      have h2 : (a :: t).filter (fun a => decide (p a)) =
          t.filter (fun a => decide (p a)) := by simp [List.filter_cons, h]
      rw [h1, h2]
      simp only [List.length_cons, ih]
      omega

/-- C6: with `N` the number of stripped non-blank lines of the input list
file — pairwise distinct — and `M` the number of them present in the
loaded completion log, the batch orchestrator builds exactly `N − M`
jobs: one per URL not in the log, in original list order (blank lines
ignored, logged URLs skipped). -/
theorem c6_resumption (content : List Char) (log : Option (List Char))
    (N M : Nat)
    (hN : N = (nonblank_lines content).length)
    (_hnd : (nonblank_lines content).Nodup)
    (hM : M = ((nonblank_lines content).filter
        (fun u => decide (u ∈ read_downloaded_log log))).length) :
    (download_from_list_jobs content log).length = N - M
    ∧ (download_from_list_jobs content log).map (fun j => j.2.1) =
        (nonblank_lines content).filter
          (fun u => decide (u ∉ read_downloaded_log log)) := by
  constructor
  · have hlen : (download_from_list_jobs content log).length =
        (download_from_list_urls content log).length := by
      unfold download_from_list_jobs
      rw [List.length_map, List.enum_length]
    rw [hlen, download_from_list_urls_eq_filter, hN, hM,
      length_filter_not (fun u => u ∈ read_downloaded_log log)]
  · unfold download_from_list_jobs
    rw [List.map_map]
    show (download_from_list_urls content log).enum.map Prod.snd = _
    rw [List.enum_map_snd, download_from_list_urls_eq_filter]

/-- C6 (witness): a list file with three non-blank lines of which one is
logged yields two jobs, in order. -/
theorem c6_resumption_witness :
    (download_from_list_jobs "a\nb\n\nc\n".data (some "b\n".data)).length = 3 - 1
    ∧ (download_from_list_jobs "a\nb\n\nc\n".data (some "b\n".data)).map
        (fun j => j.2.1) =
      (nonblank_lines "a\nb\n\nc\n".data).filter
        (fun u => decide (u ∉ read_downloaded_log (some "b\n".data))) :=
  c6_resumption "a\nb\n\nc\n".data (some "b\n".data) 3 1 (by decide) (by decide)
    (by decide)

/-- Counting an index-independent property over an enumeration. -/
theorem countP_enumFrom_snd {α : Type} (q : α → Bool) :
    ∀ (l : List α) (n : Nat),
      List.countP (fun pr : Nat × α => q pr.2) (List.enumFrom n l) =
        List.countP q l := by
  intro l
  induction l with
  | nil => intro n; rfl
  | cons a t ih =>
    intro n
    simp [List.countP_cons, ih]

/-- C10: a URL occurring `k > 1` times among the stripped non-blank lines
and absent from the completion log yields `k` separate jobs in the same
batch, and with no filename prefix every one of those jobs is given the
same destination filename `{identifier}.mp4`, independent of its
index. -/
theorem c10_no_dedup (content : List Char) (log : Option (List Char))
    (u : List Char) (k : Nat)
    (hmem : u ∉ read_downloaded_log log)
    (hk : k = ((nonblank_lines content).filter
        (fun l => decide (l = u))).length)
    (_h1 : 1 < k) :
    ((download_from_list_jobs content log).filter
        (fun j => decide (j.2.1 = u))).length = k
    ∧ ∀ i j : Nat, download_filename none i (extract_id u) =
        download_filename none j (extract_id u) := by
  constructor
  · have hurls : ((download_from_list_urls content log).filter
        (fun l => decide (l = u))) =
        ((nonblank_lines content).filter (fun l => decide (l = u))) := by
      rw [download_from_list_urls_eq_filter, List.filter_filter]
      apply List.filter_congr
      intro a _
      by_cases h : a = u
      · subst h; simp [hmem]
      · simp [h]
    have hjobs : ((download_from_list_jobs content log).filter
        (fun j => decide (j.2.1 = u))).length =
        ((download_from_list_urls content log).filter
          (fun l => decide (l = u))).length := by
      unfold download_from_list_jobs
      rw [← List.countP_eq_length_filter, ← List.countP_eq_length_filter,
        List.countP_map]
      show List.countP (fun pr : Nat × List Char => decide (pr.2 = u))
        (List.enumFrom 0 (download_from_list_urls content log)) = _
      exact countP_enumFrom_snd (fun l => decide (l = u)) _ 0
    rw [hjobs, hurls, hk]
  · intro i j
    rfl

/-- C10 (witness): a URL listed twice and not logged yields two jobs,
both writing to the same `{identifier}.mp4`. -/
theorem c10_no_dedup_witness :
    ((download_from_list_jobs "x/a\nx/a\n".data none).filter
        (fun j => decide (j.2.1 = "x/a".data))).length = 2
    ∧ ∀ i j : Nat, download_filename none i (extract_id "x/a".data) =
        download_filename none j (extract_id "x/a".data) :=
  c10_no_dedup "x/a\nx/a\n".data none "x/a".data 2 (by decide) (by decide)
    (by decide)

/-! ## Concurrency-bounded scheduler (`async_pool`, dl.py lines 72-80)

`async_pool` wraps every task in `bounded_task`, which acquires an
`asyncio.Semaphore(pool_limit)` before awaiting the task, and gathers
all wrapped tasks.  The cooperative execution is modelled as a
small-step transition system; the nondeterministic interleaving of steps
covers every order in which the tasks' I/O can complete. -/

/-- One task handed to `async_pool`: an opaque amount of cooperative
work (a number of suspension points) and a final outcome —
`Except.error` models a coroutine that raises, `Except.ok` one that
returns normally.  The orchestrator's tasks are `download_single_video`
coroutines, which catch every exception (dl.py line 138) and hence
always return. -/
structure PoolTask (E A : Type) where
  steps : Nat
  result : Except E A

/-- A state of one `async_pool` run: indices of tasks whose
`bounded_task` has not yet acquired the semaphore, in FIFO order; the
running tasks (index, remaining suspension points) — exactly those
holding a semaphore permit; and the indices of finished tasks in
completion order. -/
structure PoolState where
  pending : List Nat
  running : List (Nat × Nat)
  done : List Nat
  deriving DecidableEq, Repr

/-- The work budget of task `i` (0 when `i` is out of range). -/
def stepsOf {E A : Type} (tasks : List (PoolTask E A)) (i : Nat) : Nat :=
  ((tasks.get? i).map PoolTask.steps).getD 0

/-- Small-step semantics of `async_pool(limit, tasks)`: `start` — the
longest-waiting `bounded_task` acquires the semaphore, possible only
while fewer than `limit` permits are held; `work` — a running task
yields at one of its suspension points; `finish` — a running task with
no work left returns, releasing its permit and recording its result. -/
inductive PoolStep {E A : Type} (tasks : List (PoolTask E A)) (limit : Nat) :
    PoolState → PoolState → Prop where
  | start {i : Nat} {rest : List Nat} {running : List (Nat × Nat)}
      {done : List Nat} :
      running.length < limit →
      PoolStep tasks limit ⟨i :: rest, running, done⟩
        ⟨rest, running ++ [(i, stepsOf tasks i)], done⟩
  | work {pending : List Nat} {r₁ r₂ : List (Nat × Nat)} {i n : Nat}
      {done : List Nat} :
      PoolStep tasks limit ⟨pending, r₁ ++ (i, n + 1) :: r₂, done⟩
        ⟨pending, r₁ ++ (i, n) :: r₂, done⟩
  | finish {pending : List Nat} {r₁ r₂ : List (Nat × Nat)} {i : Nat}
      {done : List Nat} :
      PoolStep tasks limit ⟨pending, r₁ ++ (i, 0) :: r₂, done⟩
        ⟨pending, r₁ ++ r₂, done ++ [i]⟩

/-- The initial state: every `bounded_task` queued, in input order. -/
def initPool (n : Nat) : PoolState := ⟨List.range n, [], []⟩

/-- The states reachable in a run of `async_pool(limit, tasks)`. -/
def PoolReach {E A : Type} (tasks : List (PoolTask E A)) (limit : Nat)
    (s : PoolState) : Prop :=
  Relation.ReflTransGen (PoolStep tasks limit) (initPool tasks.length) s

/-- The semaphore invariant: no reachable state holds more than `limit`
permits, i.e. never more than `limit` tasks are started-but-unfinished. -/
theorem poolReach_running_le {E A : Type} (tasks : List (PoolTask E A))
    (limit : Nat) {s : PoolState} (h : PoolReach tasks limit s) :
    s.running.length ≤ limit := by
  induction h with
  | refl => simp [initPool]
  | tail hab hbc ih =>
    cases hbc with
    | start hlt => simp only [List.length_append, List.length_singleton]; omega
    | work => simp only [List.length_append, List.length_cons] at ih ⊢; omega
    | finish => simp only [List.length_append, List.length_cons] at ih ⊢; omega

/-- Conservation: in every reachable state the pending, running and done
task indices together are a permutation of the input task indices. -/
theorem poolReach_perm {E A : Type} (tasks : List (PoolTask E A))
    (limit : Nat) {s : PoolState} (h : PoolReach tasks limit s) :
    (s.pending ++ s.running.map Prod.fst ++ s.done).Perm
      (List.range tasks.length) := by
  induction h with
  | refl => simp [initPool]
  | tail hab hbc ih =>
    refine List.Perm.trans ?_ ih
    cases hbc with
    | @start i rest running done hlt =>
      have h1 : rest ++ List.map Prod.fst (running ++ [(i, stepsOf tasks i)]) ++ done
          = (rest ++ List.map Prod.fst running) ++ i :: done := by simp
      have h3 : i :: (rest ++ List.map Prod.fst running ++ done)
          = (i :: rest) ++ List.map Prod.fst running ++ done := by simp
      show (rest ++ List.map Prod.fst (running ++ [(i, stepsOf tasks i)]) ++ done).Perm
        ((i :: rest) ++ List.map Prod.fst running ++ done)
      rw [h1, ← h3]
      exact List.perm_middle
    | work =>
      simp only [List.map_append, List.map_cons]
      exact List.Perm.refl _
    | @finish pending r₁ r₂ i done =>
      show (pending ++ List.map Prod.fst (r₁ ++ r₂) ++ (done ++ [i])).Perm
        (pending ++ List.map Prod.fst (r₁ ++ (i, 0) :: r₂) ++ done)
      have hL : pending ++ List.map Prod.fst (r₁ ++ r₂) ++ (done ++ [i])
          = (pending ++ (List.map Prod.fst r₁ ++ (List.map Prod.fst r₂ ++ done))) ++ [i] := by
        simp
      have hR : pending ++ List.map Prod.fst (r₁ ++ (i, 0) :: r₂) ++ done
          = (pending ++ List.map Prod.fst r₁) ++ i :: (List.map Prod.fst r₂ ++ done) := by
        simp
      rw [hL, hR]
      refine (List.perm_append_singleton _ _).trans ?_
      rw [show pending ++ (List.map Prod.fst r₁ ++ (List.map Prod.fst r₂ ++ done))
          = (pending ++ List.map Prod.fst r₁) ++ (List.map Prod.fst r₂ ++ done) by simp]
      exact List.perm_middle.symm

/-- Task `i` raises: it exists and its coroutine ends in an exception. -/
def taskErrored {E A : Type} (tasks : List (PoolTask E A)) (i : Nat) : Prop :=
  ∃ t, tasks.get? i = some t ∧ ∃ e, t.result = Except.error e

/-- The return condition of `await asyncio.gather(...)` as used by
`async_pool` (no `return_exceptions`): gather returns when every task
has finished, or as soon as some finished task raised (propagating that
exception). -/
def gatherReturns {E A : Type} (tasks : List (PoolTask E A))
    (s : PoolState) : Prop :=
  (s.pending = [] ∧ s.running = []) ∨ ∃ i ∈ s.done, taskErrored tasks i

/-- C2: for every sequence of jobs whose coroutines return normally — as
the orchestrator's jobs do, since `download_single_video` catches every
exception — and every positive limit, `async_pool` returns only once all
jobs have finished (no pending or running task remains) and its `done`
record holds exactly one result per input job; no single job's failure
short-circuits or aborts the batch. -/
theorem c2_scheduler {E A : Type} (tasks : List (PoolTask E A))
    (limit : Nat) (_hlim : 0 < limit)
    (hok : ∀ t ∈ tasks, ∃ a, t.result = Except.ok a)
    (s : PoolState) (hreach : PoolReach tasks limit s)
    (hret : gatherReturns tasks s) :
    s.pending = [] ∧ s.running = []
    ∧ s.done.Perm (List.range tasks.length) := by
  rcases hret with ⟨hp, hr⟩ | ⟨i, hi, t, hget, e, herr⟩
  · have hperm := poolReach_perm tasks limit hreach
    rw [hp, hr] at hperm
    exact ⟨hp, hr, by simpa using hperm⟩
  · exfalso
    rcases hok t (List.get?_mem hget) with ⟨a, ha⟩
    rw [ha] at herr
    exact Except.noConfusion herr

/-- C2 (witness): a one-task pool reaching its final state has returned
with that task done. -/
theorem c2_scheduler_witness :
    (⟨[], [], [0]⟩ : PoolState).pending = []
    ∧ (⟨[], [], [0]⟩ : PoolState).running = []
    ∧ (⟨[], [], [0]⟩ : PoolState).done.Perm (List.range
        ([⟨0, Except.ok 0⟩] : List (PoolTask Nat Nat)).length) := by
  have h1 : PoolStep ([⟨0, Except.ok 0⟩] : List (PoolTask Nat Nat)) 1
      ⟨[0], [], []⟩ ⟨[], [(0, 0)], []⟩ := PoolStep.start (by decide)
  have h2 : PoolStep ([⟨0, Except.ok 0⟩] : List (PoolTask Nat Nat)) 1
      ⟨[], [(0, 0)], []⟩ ⟨[], [], [0]⟩ :=
    @PoolStep.finish Nat Nat [⟨0, Except.ok 0⟩] 1 [] [] [] 0 []
  exact c2_scheduler [⟨0, Except.ok 0⟩] 1 (by decide)
    (by intro t ht; rw [List.mem_singleton] at ht; subst ht; exact ⟨0, rfl⟩)
    ⟨[], [], [0]⟩
    (Relation.ReflTransGen.head h1 (Relation.ReflTransGen.single h2))
    (Or.inl ⟨rfl, rfl⟩)

/-- C7: in a batch run over more than 5 jobs with the orchestrator's
pool limit of 5, every reachable scheduler state has at most 5
started-but-unfinished jobs; and whenever a transition frees a slot (a
job finishes) while jobs are still queued, the head queued job may
immediately start, so the bound is tight but never exceeded. -/
theorem c7_bounded_concurrency {E A : Type} (tasks : List (PoolTask E A))
    (_htasks : batch_pool_limit < tasks.length) :
    (∀ s, PoolReach tasks batch_pool_limit s →
      s.running.length ≤ batch_pool_limit)
    ∧ (∀ s s', PoolReach tasks batch_pool_limit s →
        PoolStep tasks batch_pool_limit s s' →
        s'.running.length < s.running.length →
        ∀ j rest, s'.pending = j :: rest →
        PoolStep tasks batch_pool_limit s'
          ⟨rest, s'.running ++ [(j, stepsOf tasks j)], s'.done⟩) := by
  constructor
  · intro s h
    exact poolReach_running_le tasks batch_pool_limit h
  · intro s s' hreach hstep hdec j rest hpend
    have h1 : s.running.length ≤ batch_pool_limit :=
      poolReach_running_le tasks batch_pool_limit hreach
    have h2 : s'.running.length < batch_pool_limit := by omega
    cases s' with
    | mk pend run done =>
      cases hpend
      exact PoolStep.start h2

/-- C7 (witness): the bound applied to the initial state of a 6-job
run. -/
theorem c7_bounded_concurrency_witness :
    (initPool 6).running.length ≤ batch_pool_limit :=
  (c7_bounded_concurrency
    ([⟨0, Except.ok 0⟩, ⟨0, Except.ok 0⟩, ⟨0, Except.ok 0⟩,
      ⟨0, Except.ok 0⟩, ⟨0, Except.ok 0⟩, ⟨0, Except.ok 0⟩] :
      List (PoolTask Nat Nat))
    (by decide)).1 (initPool 6) Relation.ReflTransGen.refl

end LoomDl
